import Mathlib

/-!
Verification of the permission-scoped administrative access-control model of
the liquid-core repository, embedded shallowly from
`liquidcore/site/admin.py` and `liquidcore/config/models.py`.

Python strings are modelled as Lean `String`, Python lists as Lean `List`,
Python sets (such as the result of `get_group_permissions()` and of the
`all_permissions()` set comprehension) as lists of their elements, with all
properties stated at the level of membership so that the unspecified
iteration order of a Python set is irrelevant.  Python exceptions raised
during a computation are modelled with `Option`/`Except`.
-/

/-! ## Python string splitting

Python's `str.split(sep)` for a one-character separator, modelled on the
character list underlying the string.  `"home.use_x".split('.')` is
`["home", "use_x"]`, `"".split('.')` is `[""]`, and `"a..b".split('.')`
is `["a", "", "b"]`, exactly as in Python. -/

def splitOnChar (c : Char) : List Char → List (List Char)
  | [] => [[]]
  | x :: xs =>
    if x = c then
      [] :: splitOnChar c xs
    else
      match splitOnChar c xs with
      | [] => [[x]]
      | y :: ys => (x :: y) :: ys

/-- Python `s.split(c)` for a single-character separator `c`. -/
def pySplit (c : Char) (s : String) : List String :=
  (splitOnChar c s.data).map (fun l => String.mk l)

/-- Python `s.split('.')[1]`: `none` models the `IndexError` raised when the
split has fewer than two parts. -/
def pySplitDotOne (s : String) : Option String :=
  (pySplit '.' s).get? 1

/-! ## App catalog and permission rows -/

/-- One entry of the `LIQUID_APPS` configuration list: `{id, enabled, adminOnly}`. -/
structure App where
  id : String
  enabled : Bool
  adminOnly : Bool
deriving DecidableEq, Repr

/-- A row of the identity store's permission table, as seen by the admin
queryset filtering; only the `codename` column is consulted. -/
structure Permission where
  codename : String
deriving DecidableEq, Repr

/-- The codename list built inside `_filter_permissions`:
`[f'use_{perm}' for perm in [app['id'] for app in settings.LIQUID_APPS if app['enabled']]]`. -/
def enabled_app_codenames (liquid_apps : List App) : List String :=
  ((liquid_apps.filter (fun a => a.enabled)).map (fun a => a.id)).map
    (fun perm => "use_" ++ perm)

/-- `_filter_permissions(qs)` from `admin.py`: keep the permission rows whose
codename is in the enabled-app codename list. -/
def _filter_permissions (liquid_apps : List App) (qs : List Permission) : List Permission :=
  qs.filter (fun p => (enabled_app_codenames liquid_apps).contains p.codename)

/-- `all_permissions()` from `admin.py`:
`{f'home.use_{perm}' for perm in [app['id'] for app in settings.LIQUID_APPS if app['enabled'] and not app['adminOnly']]}`,
the classification universe. -/
def all_permissions (liquid_apps : List App) : List String :=
  ((liquid_apps.filter (fun a => a.enabled && !a.adminOnly)).map (fun a => a.id)).map
    (fun perm => "home.use_" ++ perm)

/-! ## Admin formfield filtering (PermissionFilterMixin) -/

/-- `PermissionFilterMixin.formfield_for_manytomany`: when the rendered field
is `permissions` or `user_permissions`, replace its candidate queryset by the
filtered one; otherwise leave the queryset unchanged. -/
def formfield_for_manytomany (liquid_apps : List App) (field_name : String)
    (qs : List Permission) : List Permission :=
  if field_name = "permissions" ∨ field_name = "user_permissions" then
    _filter_permissions liquid_apps qs
  else
    qs

/-- The user-management surface (`HooverUserAdmin`, which inherits
`PermissionFilterMixin`) rendering its `user_permissions` field. -/
def hooverUserAdmin_permission_field (liquid_apps : List App)
    (qs : List Permission) : List Permission :=
  formfield_for_manytomany liquid_apps "user_permissions" qs

/-- The group-management surface (`HooverGroupAdmin`, which inherits the same
`PermissionFilterMixin`) rendering its `permissions` field. -/
def hooverGroupAdmin_permission_field (liquid_apps : List App)
    (qs : List Permission) : List Permission :=
  formfield_for_manytomany liquid_apps "permissions" qs

/-! ## Effective-permission summarizer -/

/-- The three shapes of value returned by
`HooverUserAdmin.app_permissions_from_groups`: the string
`'All app permissions.'`, a list of bare codenames, or the string `'-'`. -/
inductive AppPermissionSummary where
  | allApps : AppPermissionSummary
  | codenames : List String → AppPermissionSummary
  | dash : AppPermissionSummary
deriving DecidableEq, Repr

/-- `HooverUserAdmin.app_permissions_from_groups` from `admin.py`, with the
principal's resolved group-permission set passed in as `perm_set`:

1. if `all_permissions().issubset(perm_set)` return `'All app permissions.'`;
2. else if `perm_set` is non-empty return
   `[perm.split('.')[1] for perm in perm_set if perm in all_permissions()]`;
3. else return `'-'`.

The result is `none` when the list comprehension raises (an `IndexError`
from `split('.')[1]`), i.e. when the render would crash. -/
def app_permissions_from_groups (liquid_apps : List App)
    (perm_set : List String) : Option AppPermissionSummary :=
  if (all_permissions liquid_apps).all (fun p => perm_set.contains p) then
    some AppPermissionSummary.allApps
  else if !perm_set.isEmpty then
    match (perm_set.filter
        (fun p => (all_permissions liquid_apps).contains p)).mapM pySplitDotOne with
    | some l => some (AppPermissionSummary.codenames l)
    | none => none
  else
    some AppPermissionSummary.dash

/-- The spec's display form of a qualified permission: the bare codename with
the namespace prefix `home.` (5 characters) stripped. -/
def bare_codename (s : String) : String :=
  String.mk (s.data.drop 5)

/-! ## Account creation (HooverUserAdmin.get_form and the creation forms) -/

/-- The credential slot of a stored user record: either Django's unusable
password sentinel (set by `set_unusable_password()`) or a usable password. -/
inductive StoredPassword where
  | unusable : StoredPassword
  | usable : String → StoredPassword
deriving DecidableEq, Repr

/-- The user record produced by a creation form. -/
structure UserRec where
  username : String
  password : StoredPassword
deriving DecidableEq, Repr

/-- `Hoover2FAUserCreationForm.save` from `admin.py`: the form's only field is
the username and `save` calls `user.set_unusable_password()`, so the stored
record always carries an unusable credential. -/
def hoover2FAUserCreationForm_save (username : String) : UserRec :=
  { username := username, password := StoredPassword.unusable }

/-- Modelled from the spec: `HooverUserCreationForm` subclasses Django's
`UserCreationForm` (external library code, not in this repository), which
requires explicit `password1`/`password2` fields; a submission missing them
fails validation with a required-field error, and matching passwords are
stored as the usable credential. -/
def hooverUserCreationForm_save (username : String)
    (password1 password2 : Option String) : Except String UserRec :=
  match password1, password2 with
  | some p1, some p2 =>
    if p1 = p2 then
      Except.ok { username := username, password := StoredPassword.usable p1 }
    else
      Except.error "The two password fields did not match."
  | _, _ => Except.error "This field is required."

/-- The two creation forms `HooverUserAdmin.get_form` can select for an
add (obj is None) request. -/
inductive CreationForm where
  | twofa : CreationForm
  | classic : CreationForm
deriving DecidableEq, Repr

/-- The form selection in `HooverUserAdmin.get_form` for a creation request:
`Hoover2FAUserCreationForm` when `settings.LIQUID_2FA` holds, otherwise
`HooverUserCreationForm`. -/
def hooverUserAdmin_get_form (liquid_2fa : Bool) : CreationForm :=
  if liquid_2fa then CreationForm.twofa else CreationForm.classic

/-- Creating a user through the admin surface: dispatch on the form selected
by `hooverUserAdmin_get_form` and run that form's `save`. -/
def admin_create_user (liquid_2fa : Bool) (username : String)
    (password1 password2 : Option String) : Except String UserRec :=
  match hooverUserAdmin_get_form liquid_2fa with
  | CreationForm.twofa => Except.ok (hoover2FAUserCreationForm_save username)
  | CreationForm.classic => hooverUserCreationForm_save username password1 password2

/-! ## Invitation admin surface -/

/-- The data of an inbound admin request that the permission hooks consult:
whether the requesting user holds the model's change permission. -/
structure AdminRequest where
  userHasChangePerm : Bool
deriving DecidableEq, Repr

/-- `InvitationAdmin.has_add_permission`: always `False`. -/
def invitationAdmin_has_add_permission (_r : AdminRequest) : Bool :=
  false

/-- `InvitationAdmin.has_delete_permission`: always `True`. -/
def invitationAdmin_has_delete_permission (_r : AdminRequest) : Bool :=
  true

/-- Modelled from the spec: `InvitationAdmin` overrides neither
`has_change_permission` nor any read-only restriction, so editing falls back
to Django's `ModelAdmin` default (framework code outside this repository),
which grants change access exactly when the requesting user holds the change
permission. -/
def invitationAdmin_has_change_permission (r : AdminRequest) : Bool :=
  r.userHasChangePerm

/-- `InvitationAdmin.time_left` from `admin.py`, with instants modelled as
integer second counts: empty string when `expires < now()`, otherwise
`int((expires - now()).total_seconds() / 60)` rendered as `'<n> min'`
(Python's `int(...)` truncates toward zero, which is `Int.div`). -/
def time_left (expires nowT : Int) : String :=
  if expires < nowT then
    ""
  else
    toString (Int.tdiv (expires - nowT) 60) ++ " min"

/-! ## JSON-valued model fields (`Setting.data`, `Node.data`)

`config/models.py` stores JSON values in a text column through
`json.dumps`/`json.loads`.  The Python `json` module is external library
code; it is modelled here for JSON values built from null, booleans,
integers, strings, arrays and objects, with `dumps` producing Python's
default rendering (separators `', '` and `': '`) and `loads` a
recursive-descent parser returning `none` where `json.loads` raises. -/

inductive Json where
  | null : Json
  | bool : Bool → Json
  | num : Int → Json
  | str : String → Json
  | arr : List Json → Json
  | obj : List (String × Json) → Json

/-- JSON string escaping for one character, as emitted by `json.dumps`. -/
def jsonQuoteChar (c : Char) : List Char :=
  if c = Char.ofNat 34 then ['\\', Char.ofNat 34]
  else if c = '\\' then ['\\', '\\']
  else if c = Char.ofNat 10 then ['\\', 'n']
  else if c = Char.ofNat 9 then ['\\', 't']
  else if c = Char.ofNat 13 then ['\\', 'r']
  else [c]

/-- A JSON string literal with surrounding quotes, as emitted by `json.dumps`. -/
def jsonQuote (s : String) : String :=
  String.mk (Char.ofNat 34 :: ((s.data.map jsonQuoteChar).flatten ++ [Char.ofNat 34]))

mutual

def dumps : Json → String
  | Json.null => "null"
  | Json.bool b => if b then "true" else "false"
  | Json.num n => toString n
  | Json.str s => jsonQuote s
  | Json.arr l => "[" ++ String.intercalate ", " (dumpsList l) ++ "]"
  | Json.obj m =>
    "\x7b" ++ String.intercalate ", " (dumpsMembers m) ++ "\x7d"

def dumpsList : List Json → List String
  | [] => []
  | v :: vs => dumps v :: dumpsList vs

def dumpsMembers : List (String × Json) → List String
  | [] => []
  | (k, v) :: ms => (jsonQuote k ++ ": " ++ dumps v) :: dumpsMembers ms

end

/-- JSON insignificant whitespace. -/
def isJsonWs (c : Char) : Bool :=
  c == ' ' || c == Char.ofNat 10 || c == Char.ofNat 9 || c == Char.ofNat 13

/-- Skip leading insignificant whitespace. -/
def skipWs : List Char → List Char
  | [] => []
  | c :: cs => if isJsonWs c then skipWs cs else c :: cs

/-- Parse the body of a JSON string literal after its opening quote, up to
and including the closing quote; returns the unescaped characters and the
remainder. -/
def parseStringBody : List Char → Option (List Char × List Char)
  | [] => none
  | c :: cs =>
    if c = Char.ofNat 34 then some ([], cs)
    else if c = '\\' then
      match cs with
      | [] => none
      | e :: cs2 =>
        match
          (if e = Char.ofNat 34 then some (Char.ofNat 34)
           else if e = '\\' then some '\\'
           else if e = Char.ofNat 47 then some (Char.ofNat 47)
           else if e = 'n' then some (Char.ofNat 10)
           else if e = 't' then some (Char.ofNat 9)
           else if e = 'r' then some (Char.ofNat 13)
           else none) with
        | none => none
        | some u =>
          match parseStringBody cs2 with
          | none => none
          | some (body, rest) => some (u :: body, rest)
    else
      match parseStringBody cs with
      | none => none
      | some (body, rest) => some (c :: body, rest)

/-- Decimal value of a digit list. -/
def digitsVal (ds : List Char) : Nat :=
  ds.foldl (fun a c => a * 10 + (c.toNat - 48)) 0

/-- Parse a JSON integer token (optional minus sign, then digits). -/
def parseIntTok (cs : List Char) : Option (Int × List Char) :=
  match cs with
  | [] => none
  | c :: rest =>
    if c = '-' then
      let ds := rest.takeWhile (fun d => d.isDigit)
      let rest2 := rest.dropWhile (fun d => d.isDigit)
      if ds.isEmpty then none else some (-(digitsVal ds : Int), rest2)
    else
      let ds := cs.takeWhile (fun d => d.isDigit)
      let rest2 := cs.dropWhile (fun d => d.isDigit)
      if ds.isEmpty then none else some ((digitsVal ds : Int), rest2)

mutual

def parseVal : Nat → List Char → Option (Json × List Char)
  | 0, _ => none
  | Nat.succ fuel, cs =>
    match skipWs cs with
    | [] => none
    | c :: rest =>
      if c = Char.ofNat 34 then
        match parseStringBody rest with
        | some (body, r) => some (Json.str (String.mk body), r)
        | none => none
      else if c = Char.ofNat 123 then
        match skipWs rest with
        | [] => none
        | d :: r2 =>
          if d = Char.ofNat 125 then some (Json.obj [], r2)
          else
            match parseMembers fuel (d :: r2) with
            | some (ms, r3) => some (Json.obj ms, r3)
            | none => none
      else if c = '[' then
        match skipWs rest with
        | [] => none
        | d :: r2 =>
          if d = ']' then some (Json.arr [], r2)
          else
            match parseItems fuel (d :: r2) with
            | some (vs, r3) => some (Json.arr vs, r3)
            | none => none
      else if c = 'n' then
        match rest with
        | 'u' :: 'l' :: 'l' :: r => some (Json.null, r)
        | _ => none
      else if c = 't' then
        match rest with
        | 'r' :: 'u' :: 'e' :: r => some (Json.bool true, r)
        | _ => none
      else if c = 'f' then
        match rest with
        | 'a' :: 'l' :: 's' :: 'e' :: r => some (Json.bool false, r)
        | _ => none
      else
        match parseIntTok (c :: rest) with
        | some (n, r) => some (Json.num n, r)
        | none => none

def parseItems : Nat → List Char → Option (List Json × List Char)
  | 0, _ => none
  | Nat.succ fuel, cs =>
    match parseVal fuel cs with
    | none => none
    | some (v, r) =>
      match skipWs r with
      | ',' :: r2 =>
        match parseItems fuel r2 with
        | some (vs, r3) => some (v :: vs, r3)
        | none => none
      | ']' :: r2 => some ([v], r2)
      | _ => none

def parseMembers : Nat → List Char → Option (List (String × Json) × List Char)
  | 0, _ => none
  | Nat.succ fuel, cs =>
    match skipWs cs with
    | [] => none
    | c :: r =>
      if c = Char.ofNat 34 then
        match parseStringBody r with
        | none => none
        | some (key, r2) =>
          match skipWs r2 with
          | ':' :: r3 =>
            match parseVal fuel r3 with
            | none => none
            | some (v, r4) =>
              match skipWs r4 with
              | [] => none
              | ',' :: r5 =>
                match parseMembers fuel r5 with
                | some (ms, r6) => some ((String.mk key, v) :: ms, r6)
                | none => none
              | d :: r5 =>
                if d = Char.ofNat 125 then some ([(String.mk key, v)], r5)
                else none
          | _ => none
      else none

end

/-- `json.loads`: parse a complete JSON document; `none` models the
`JSONDecodeError` raised on invalid input or trailing garbage. -/
def loads (s : String) : Option Json :=
  match parseVal (s.data.length + 1) s.data with
  | some (v, rest) => if (skipWs rest).isEmpty then some v else none
  | none => none

/-- The `Setting` model of `config/models.py`: a name (primary key) and the
serialized-JSON text column `data_text`. -/
structure Setting where
  name : String
  data_text : String
deriving DecidableEq, Repr

/-- The `Setting.data` property getter: `json.loads(self.data_text)`. -/
def Setting.data (s : Setting) : Option Json :=
  loads s.data_text

/-- The `Setting.data` property setter: `self.data_text = json.dumps(data)`. -/
def Setting.set_data (s : Setting) (v : Json) : Setting :=
  { s with data_text := dumps v }

/-- The `Node` model of `config/models.py`: name, trusted flag, address, and
the serialized-JSON text column `data_text`. -/
structure Node where
  name : String
  trusted : Bool
  address : String
  data_text : String
deriving DecidableEq, Repr

/-- The `Node.data` property getter: `json.loads(self.data_text)`. -/
def Node.data (n : Node) : Option Json :=
  loads n.data_text

/-- The `Node.data` property setter: `self.data_text = json.dumps(data)`. -/
def Node.set_data (n : Node) (v : Json) : Node :=
  { n with data_text := dumps v }

/-! ## Concrete scenario checks

Direct evaluations of the embedded definitions on the spec's scenario
inputs and on the edge cases exercised below. -/

section SpecScenarios

example : pySplit '.' "home.use_hoover" = ["home", "use_hoover"] := by decide

example :
    enabled_app_codenames
      [⟨"hoover", true, false⟩, ⟨"matrix", true, true⟩, ⟨"wiki", false, false⟩]
      = ["use_hoover", "use_matrix"] := by decide

example :
    all_permissions
      [⟨"hoover", true, false⟩, ⟨"matrix", true, true⟩, ⟨"wiki", false, false⟩]
      = ["home.use_hoover"] := by decide

example :
    app_permissions_from_groups [⟨"hoover", true, false⟩] ["home.use_hoover"]
      = some AppPermissionSummary.allApps := by decide

example :
    app_permissions_from_groups [] [] = some AppPermissionSummary.allApps := by decide

example :
    app_permissions_from_groups [⟨"hoover", true, false⟩] [] =
      some AppPermissionSummary.dash := by decide

example :
    app_permissions_from_groups [⟨"hoover", true, false⟩] ["other.thing"] =
      some (AppPermissionSummary.codenames []) := by decide

example :
    app_permissions_from_groups
      [⟨"a.b", true, false⟩, ⟨"c", true, false⟩] ["home.use_a.b"]
      = some (AppPermissionSummary.codenames ["use_a"]) := by decide

example : bare_codename "home.use_a.b" = "use_a.b" := by decide

example : time_left 1800 0 = "30 min" := by decide

example : time_left 0 1 = "" := by decide

example : dumps (Json.obj [("a", Json.num (-3)), ("b", Json.arr [Json.null, Json.bool true, Json.str "x"])]) = "\x7b\"a\": -3, \"b\": [null, true, \"x\"]\x7d" := rfl

example :
    loads (dumps (Json.obj [("a", Json.num (-3)), ("b", Json.arr [Json.null, Json.bool true, Json.str "x"])]))
      = some (Json.obj [("a", Json.num (-3)), ("b", Json.arr [Json.null, Json.bool true, Json.str "x"])]) := rfl

example : admin_create_user true "alice" none none = Except.ok { username := "alice", password := StoredPassword.unusable } := rfl

end SpecScenarios

/-! ## Helper lemmas -/

theorem string_append_left_cancel {a s t : String} (h : a ++ s = a ++ t) : s = t := by
  cases a; cases s; cases t
  simp only [String.ext_iff] at h ⊢
  simpa [String.append] using h

theorem splitOnChar_ne_nil (c : Char) (l : List Char) : splitOnChar c l ≠ [] := by
  induction l with
  | nil => simp [splitOnChar]
  | cons x xs ih =>
    unfold splitOnChar
    by_cases hx : x = c
    · simp [hx]
    · simp only [if_neg hx]
      cases h : splitOnChar c xs with
      | nil => simp
      | cons y ys => simp

theorem splitOnChar_no_sep (c : Char) (l : List Char) (h : ∀ x ∈ l, x ≠ c) :
    splitOnChar c l = [l] := by
  induction l with
  | nil => simp [splitOnChar]
  | cons x xs ih =>
    have hx : x ≠ c := h x (by simp)
    have ihx := ih (fun y hy => h y (by simp [hy]))
    unfold splitOnChar
    simp [if_neg hx, ihx]

theorem splitOnChar_append_no_sep (c : Char) (l1 l2 : List Char)
    (h : ∀ x ∈ l1, x ≠ c) :
    splitOnChar c (l1 ++ c :: l2) = l1 :: splitOnChar c l2 := by
  induction l1 with
  | nil => simp [splitOnChar]
  | cons x xs ih =>
    have hx : x ≠ c := h x (by simp)
    have ihx := ih (fun y hy => h y (by simp [hy]))
    simp only [List.cons_append, splitOnChar, if_neg hx, List.append_eq, ihx]

theorem pySplit_home_use (t : String) :
    pySplit '.' ("home.use_" ++ t)
      = "home" :: (splitOnChar '.' (['u', 's', 'e', '_'] ++ t.data)).map (fun l => String.mk l) := by
  unfold pySplit
  have hd : ("home.use_" ++ t).data
      = ['h', 'o', 'm', 'e'] ++ '.' :: (['u', 's', 'e', '_'] ++ t.data) := by
    rw [String.data_append]
    rfl
  rw [hd, splitOnChar_append_no_sep '.' ['h', 'o', 'm', 'e'] _ (by decide)]
  rfl

theorem pySplitDotOne_home_use_isSome (t : String) :
    (pySplitDotOne ("home.use_" ++ t)).isSome := by
  unfold pySplitDotOne
  rw [pySplit_home_use]
  cases h : splitOnChar '.' (['u', 's', 'e', '_'] ++ t.data) with
  | nil => exact absurd h (splitOnChar_ne_nil _ _)
  | cons y ys => simp

theorem pySplitDotOne_home_use_nodot (t : String) (h : '.' ∉ t.data) :
    pySplitDotOne ("home.use_" ++ t) = some ("use_" ++ t) := by
  unfold pySplitDotOne
  rw [pySplit_home_use]
  have hns : ∀ x ∈ ['u', 's', 'e', '_'] ++ t.data, x ≠ '.' := by
    intro x hx
    rcases List.mem_append.mp hx with h1 | h2
    · simp only [List.mem_cons, List.not_mem_nil, or_false] at h1
      rcases h1 with rfl | rfl | rfl | rfl <;> decide
    · intro hc
      exact h (hc ▸ h2)
  rw [splitOnChar_no_sep '.' _ hns]
  have hmk : String.mk ('u' :: 's' :: 'e' :: '_' :: t.data) = "use_" ++ t := by
    apply String.ext
    rw [String.data_append]
    rfl
  show some (String.mk ('u' :: 's' :: 'e' :: '_' :: t.data)) = some ("use_" ++ t)
  rw [hmk]

theorem bare_codename_home_use (t : String) :
    bare_codename ("home.use_" ++ t) = "use_" ++ t := by
  apply String.ext
  unfold bare_codename
  rw [String.data_append, String.data_append]
  rfl

theorem mem_all_permissions_iff (liquid_apps : List App) (s : String) :
    s ∈ all_permissions liquid_apps ↔
      ∃ a, a ∈ liquid_apps ∧ a.enabled = true ∧ a.adminOnly = false ∧
        s = "home.use_" ++ a.id := by
  unfold all_permissions
  simp only [List.mem_map, List.mem_filter, Bool.and_eq_true, Bool.not_eq_true']
  constructor
  · rintro ⟨i, ⟨a, ⟨ha, he, hn⟩, rfl⟩, rfl⟩
    exact ⟨a, ha, he, hn, rfl⟩
  · rintro ⟨a, ha, he, hn, rfl⟩
    exact ⟨a.id, ⟨a, ⟨ha, he, hn⟩, rfl⟩, rfl⟩

theorem mem_enabled_app_codenames_iff (liquid_apps : List App) (s : String) :
    s ∈ enabled_app_codenames liquid_apps ↔
      ∃ a, a ∈ liquid_apps ∧ a.enabled = true ∧ s = "use_" ++ a.id := by
  unfold enabled_app_codenames
  simp only [List.mem_map, List.mem_filter]
  constructor
  · rintro ⟨i, ⟨a, ⟨ha, he⟩, rfl⟩, rfl⟩
    exact ⟨a, ha, he, rfl⟩
  · rintro ⟨a, ha, he, rfl⟩
    exact ⟨a.id, ⟨a, ⟨ha, he⟩, rfl⟩, rfl⟩

theorem all_contains_iff (L G : List String) :
    L.all (fun p => G.contains p) = true ↔ ∀ p ∈ L, p ∈ G := by
  rw [List.all_eq_true]
  constructor
  · intro h p hp
    exact List.elem_iff.mp (h p hp)
  · intro h p hp
    exact List.elem_iff.mpr (h p hp)

theorem mem_filter_univ (liquid_apps : List App) (G : List String) (x : String) :
    x ∈ G.filter (fun p => (all_permissions liquid_apps).contains p) ↔
      x ∈ G ∧ x ∈ all_permissions liquid_apps := by
  rw [List.mem_filter]
  exact and_congr Iff.rfl List.elem_iff

theorem mapM_eq_map_of_forall {α β : Type} (f : α → Option β) (g : α → β) :
    ∀ L : List α, (∀ x ∈ L, f x = some (g x)) → L.mapM f = some (L.map g) := by
  intro L
  induction L with
  | nil =>
    intro _
    rfl
  | cons x xs ih =>
    intro h
    rw [List.mapM_cons, h x (by simp), ih (fun y hy => h y (by simp [hy])), List.map_cons]
    rfl

theorem mapM_some_of_forall_isSome {α β : Type} (f : α → Option β) :
    ∀ (L : List α), (∀ x ∈ L, (f x).isSome) →
      ∃ l, L.mapM f = some l ∧ ∀ s, s ∈ l ↔ ∃ x ∈ L, f x = some s := by
  intro L
  induction L with
  | nil =>
    intro _
    exact ⟨[], rfl, by simp⟩
  | cons x xs ih =>
    intro h
    obtain ⟨b, hb⟩ := Option.isSome_iff_exists.mp (h x (by simp))
    obtain ⟨l, hl, hmem⟩ := ih (fun y hy => h y (by simp [hy]))
    refine ⟨b :: l, ?_, ?_⟩
    · rw [List.mapM_cons, hb, hl]
      rfl
    · intro s
      simp only [List.mem_cons]
      constructor
      · rintro (rfl | hs)
        · exact ⟨x, by simp, hb⟩
        · obtain ⟨y, hy, hfy⟩ := hmem s |>.mp hs
          exact ⟨y, by simp [hy], hfy⟩
      · rintro ⟨y, hy, hfy⟩
        rcases hy with rfl | hy2
        · left
          rw [hb] at hfy
          exact (Option.some_injective _ hfy).symm
        · right
          exact (hmem s).mpr ⟨y, hy2, hfy⟩

theorem apfg_eq_all_iff (liquid_apps : List App) (G : List String) :
    app_permissions_from_groups liquid_apps G = some AppPermissionSummary.allApps ↔
      ∀ p ∈ all_permissions liquid_apps, p ∈ G := by
  rw [← all_contains_iff]
  unfold app_permissions_from_groups
  split_ifs with h1 h2
  · exact iff_of_true rfl h1
  · split
    · exact iff_of_false (by simp) h1
    · exact iff_of_false (by simp) h1
  · exact iff_of_false (by simp) h1

theorem apfg_ne_none (liquid_apps : List App) (G : List String) :
    app_permissions_from_groups liquid_apps G ≠ none := by
  unfold app_permissions_from_groups
  split_ifs with h1 h2
  · simp
  · have hall : ∀ x ∈ G.filter (fun p => (all_permissions liquid_apps).contains p),
        (pySplitDotOne x).isSome := by
      intro x hx
      have hmem : x ∈ all_permissions liquid_apps :=
        ((mem_filter_univ liquid_apps G x).mp hx).2
      obtain ⟨a, -, -, -, rfl⟩ := (mem_all_permissions_iff liquid_apps x).mp hmem
      exact pySplitDotOne_home_use_isSome a.id
    obtain ⟨l, hl, -⟩ := mapM_some_of_forall_isSome pySplitDotOne _ hall
    rw [hl]
    simp
  · simp

theorem apfg_dash_iff (liquid_apps : List App) (G : List String) :
    app_permissions_from_groups liquid_apps G = some AppPermissionSummary.dash ↔
      (G = [] ∧ all_permissions liquid_apps ≠ []) := by
  unfold app_permissions_from_groups
  split_ifs with h1 h2
  · constructor
    · intro h
      simp at h
    · rintro ⟨rfl, hne⟩
      exfalso
      obtain ⟨p, hp⟩ := List.exists_mem_of_ne_nil _ hne
      exact List.not_mem_nil p ((all_contains_iff _ _).mp h1 p hp)
  · have hg : G ≠ [] := by
      intro h0
      rw [h0] at h2
      simp at h2
    constructor
    · intro h
      exfalso
      revert h
      split
      · intro h
        simp at h
      · intro h
        simp at h
    · rintro ⟨rfl, -⟩
      exact absurd rfl hg
  · have hg : G = [] := by
      rcases G with _ | ⟨x, xs⟩
      · rfl
      · simp at h2
    have hne : all_permissions liquid_apps ≠ [] := by
      intro h0
      apply h1
      rw [h0]
      rfl
    simp [hg, hne]

theorem apfg_listed_eq (liquid_apps : List App) (G : List String)
    (hdot : ∀ a ∈ liquid_apps, '.' ∉ a.id.data)
    (hnotsub : ¬ ∀ p ∈ all_permissions liquid_apps, p ∈ G)
    (hG : G ≠ []) :
    app_permissions_from_groups liquid_apps G =
      some (AppPermissionSummary.codenames
        ((G.filter (fun p => (all_permissions liquid_apps).contains p)).map bare_codename)) := by
  have h1 : ¬ ((all_permissions liquid_apps).all (fun p => G.contains p) = true) :=
    fun h => hnotsub ((all_contains_iff _ _).mp h)
  have h2 : (!G.isEmpty) = true := by
    cases G
    · exact absurd rfl hG
    · rfl
  unfold app_permissions_from_groups
  rw [if_neg h1, if_pos h2]
  have hmap : ∀ x ∈ G.filter (fun p => (all_permissions liquid_apps).contains p),
      pySplitDotOne x = some (bare_codename x) := by
    intro x hx
    have hmem : x ∈ all_permissions liquid_apps :=
      ((mem_filter_univ liquid_apps G x).mp hx).2
    obtain ⟨a, haC, -, -, rfl⟩ := (mem_all_permissions_iff liquid_apps _).mp hmem
    rw [pySplitDotOne_home_use_nodot a.id (hdot a haC), bare_codename_home_use]
  rw [mapM_eq_map_of_forall pySplitDotOne bare_codename _ hmap]

theorem apfg_codenames_nil (liquid_apps : List App) (G : List String)
    (hdisj : ∀ p ∈ G, p ∉ all_permissions liquid_apps)
    (hG : G ≠ []) (hU : all_permissions liquid_apps ≠ []) :
    app_permissions_from_groups liquid_apps G =
      some (AppPermissionSummary.codenames []) := by
  have h1 : ¬ ((all_permissions liquid_apps).all (fun p => G.contains p) = true) := by
    intro hsub
    obtain ⟨p, hp⟩ := List.exists_mem_of_ne_nil _ hU
    exact hdisj p ((all_contains_iff _ _).mp hsub p hp) hp
  have h2 : (!G.isEmpty) = true := by
    cases G
    · exact absurd rfl hG
    · rfl
  have hfilter : G.filter (fun p => (all_permissions liquid_apps).contains p) = [] := by
    rw [List.filter_eq_nil_iff]
    intro a ha hc
    exact hdisj a ha (List.elem_iff.mp hc)
  unfold app_permissions_from_groups
  rw [if_neg h1, if_pos h2, hfilter]
  rfl

/-! ## Claim theorems -/

/-- C1 counterexample: with catalog ids `a.b` and `c` (enabled, non-admin)
and grants exactly the qualified permission of `a.b`, the summary is not All
and the intersection with the universe contains `home.use_a.b`, whose bare
codename (namespace prefix stripped) is `use_a.b`; yet the rendered list is
`["use_a"]`, because `perm.split('.')[1]` keeps only the segment between the
first and second dot.  The claim's presentation clause is therefore false
as stated. -/
theorem summarize_strip_counterexample :
    app_permissions_from_groups [⟨"a.b", true, false⟩, ⟨"c", true, false⟩] ["home.use_a.b"]
      = some (AppPermissionSummary.codenames ["use_a"])
    ∧ app_permissions_from_groups [⟨"a.b", true, false⟩, ⟨"c", true, false⟩] ["home.use_a.b"]
      ≠ some AppPermissionSummary.allApps
    ∧ "home.use_a.b" ∈ all_permissions [⟨"a.b", true, false⟩, ⟨"c", true, false⟩]
    ∧ "home.use_a.b" ∈ (["home.use_a.b"] : List String)
    ∧ bare_codename "home.use_a.b" = "use_a.b"
    ∧ "use_a.b" ∉ (["use_a"] : List String) := by
  decide

/-- C1 (amended): the summarizer returns All exactly when the classifiable
universe is a subset of the granted set; and — provided no app id contains a
dot, which is what the counterexample forces — whenever the result is not All
and the intersection of the grants with the universe is non-empty, it returns
the Partial list consisting exactly of that intersection presented as bare
codenames with the namespace prefix stripped. -/
theorem summarize_all_iff_and_stripped_intersection
    (liquid_apps : List App) (G : List String) :
    (app_permissions_from_groups liquid_apps G = some AppPermissionSummary.allApps ↔
      ∀ p ∈ all_permissions liquid_apps, p ∈ G)
    ∧ ((∀ a ∈ liquid_apps, '.' ∉ a.id.data) →
       app_permissions_from_groups liquid_apps G ≠ some AppPermissionSummary.allApps →
       (∃ p ∈ G, p ∈ all_permissions liquid_apps) →
       app_permissions_from_groups liquid_apps G =
         some (AppPermissionSummary.codenames
           ((G.filter (fun p => (all_permissions liquid_apps).contains p)).map bare_codename))
       ∧ ∀ s, (s ∈ (G.filter (fun p => (all_permissions liquid_apps).contains p)).map bare_codename ↔
           ∃ p ∈ G, p ∈ all_permissions liquid_apps ∧ s = bare_codename p)) := by
  constructor
  · exact apfg_eq_all_iff liquid_apps G
  · intro hdot hne hinter
    obtain ⟨p0, hp0G, hp0U⟩ := hinter
    have hG : G ≠ [] := List.ne_nil_of_mem hp0G
    have hnotsub : ¬ ∀ p ∈ all_permissions liquid_apps, p ∈ G :=
      fun hsub => hne ((apfg_eq_all_iff liquid_apps G).mpr hsub)
    refine ⟨apfg_listed_eq liquid_apps G hdot hnotsub hG, ?_⟩
    intro s
    rw [List.mem_map]
    constructor
    · rintro ⟨p, hpf, rfl⟩
      obtain ⟨h1, h2⟩ := (mem_filter_univ liquid_apps G p).mp hpf
      exact ⟨p, h1, h2, rfl⟩
    · rintro ⟨p, h1, h2, rfl⟩
      exact ⟨p, (mem_filter_univ liquid_apps G p).mpr ⟨h1, h2⟩, rfl⟩

/-- C1 witness: on the catalog with enabled non-admin apps `hoover` and
`testapp` and grants containing only `home.use_hoover`, the amended theorem's
hypotheses hold and the summary is the Partial list of the intersection. -/
theorem summarize_stripped_intersection_witness :
    app_permissions_from_groups [⟨"hoover", true, false⟩, ⟨"testapp", true, false⟩]
      ["home.use_hoover"] =
      some (AppPermissionSummary.codenames
        ((["home.use_hoover"].filter
          (fun p => (all_permissions [⟨"hoover", true, false⟩, ⟨"testapp", true, false⟩]).contains p)).map
            bare_codename)) :=
  ((summarize_all_iff_and_stripped_intersection
      [⟨"hoover", true, false⟩, ⟨"testapp", true, false⟩] ["home.use_hoover"]).2
    (by decide) (by decide) ⟨"home.use_hoover", by decide, by decide⟩).1

/-- C2 counterexample: on an empty catalog the classifiable universe is
empty, so the intersection of any granted set with it is empty; the claim
demands the summary None and "never All", but the code returns All (the
subset test is vacuously true). -/
theorem summarize_empty_universe_counterexample :
    all_permissions ([] : List App) = []
    ∧ app_permissions_from_groups ([] : List App) [] = some AppPermissionSummary.allApps
    ∧ AppPermissionSummary.allApps ≠ AppPermissionSummary.dash := by
  decide

/-- C2 (amended): the summarizer returns None (`'-'`) exactly when the
granted set itself is empty and the universe is non-empty; when the universe
is empty it returns All for every granted set; and when the granted set is
non-empty but disjoint from a non-empty universe it returns the Partial shape
with an empty list, not None. -/
theorem summarize_none_characterization (liquid_apps : List App) (G : List String) :
    (app_permissions_from_groups liquid_apps G = some AppPermissionSummary.dash ↔
      G = [] ∧ all_permissions liquid_apps ≠ [])
    ∧ (all_permissions liquid_apps = [] →
        app_permissions_from_groups liquid_apps G = some AppPermissionSummary.allApps)
    ∧ (G ≠ [] → (∀ p ∈ G, p ∉ all_permissions liquid_apps) →
        all_permissions liquid_apps ≠ [] →
        app_permissions_from_groups liquid_apps G =
          some (AppPermissionSummary.codenames [])) := by
  refine ⟨apfg_dash_iff liquid_apps G, ?_, ?_⟩
  · intro hU
    apply (apfg_eq_all_iff liquid_apps G).mpr
    intro p hp
    rw [hU] at hp
    exact absurd hp (List.not_mem_nil p)
  · intro hG hdisj hU
    exact apfg_codenames_nil liquid_apps G hdisj hG hU

/-- C2 witness: a non-empty granted set disjoint from a non-empty universe
yields the empty Partial list, and an empty catalog yields All. -/
theorem summarize_none_witness :
    app_permissions_from_groups [⟨"hoover", true, false⟩] ["other.thing"] =
      some (AppPermissionSummary.codenames [])
    ∧ app_permissions_from_groups ([] : List App) ["x"] = some AppPermissionSummary.allApps :=
  ⟨(summarize_none_characterization [⟨"hoover", true, false⟩] ["other.thing"]).2.2
      (by decide) (by decide) (by decide),
   (summarize_none_characterization ([] : List App) ["x"]).2.1 (by decide)⟩

/-- C3: the assignable codename set contains exactly `use_<id>` for each
enabled app, no entry for a disabled app (whose id no enabled app shares,
per the catalog's id-uniqueness invariant), and is independent of every
app's adminOnly flag. -/
theorem assignable_codenames_exactly_enabled (liquid_apps : List App) (s : String) :
    (s ∈ enabled_app_codenames liquid_apps ↔
      ∃ a, a ∈ liquid_apps ∧ a.enabled = true ∧ s = "use_" ++ a.id)
    ∧ (∀ f : App → Bool,
        enabled_app_codenames (liquid_apps.map (fun a => { a with adminOnly := f a })) =
          enabled_app_codenames liquid_apps)
    ∧ (∀ a, a ∈ liquid_apps → a.enabled = false →
        (∀ b, b ∈ liquid_apps → b.enabled = true → b.id ≠ a.id) →
        ("use_" ++ a.id) ∉ enabled_app_codenames liquid_apps) := by
  refine ⟨mem_enabled_app_codenames_iff liquid_apps s, ?_, ?_⟩
  · intro f
    simp only [enabled_app_codenames, List.filter_map, List.map_map]
    rfl
  · intro a ha hdis huniq hmem
    obtain ⟨b, hb, hben, heq⟩ := (mem_enabled_app_codenames_iff liquid_apps _).mp hmem
    exact huniq b hb hben (string_append_left_cancel heq).symm

/-- C3 witness: with `wiki` disabled and `hoover` enabled, `use_wiki` is not
assignable. -/
theorem assignable_codenames_witness :
    ("use_wiki" : String) ∉
      enabled_app_codenames [⟨"wiki", false, false⟩, ⟨"hoover", true, false⟩] :=
  (assignable_codenames_exactly_enabled
      [⟨"wiki", false, false⟩, ⟨"hoover", true, false⟩] "use_wiki").2.2
    ⟨"wiki", false, false⟩ (by decide) rfl (by decide)

/-- C4: the classifiable universe contains exactly `home.use_<id>` for the
enabled, non-admin-only apps; an admin-only app's qualified permission is
excluded even when that app is enabled (given no other enabled non-admin app
shares its id, per the catalog's id-uniqueness invariant). -/
theorem classifiable_permissions_exactly (liquid_apps : List App) (s : String) :
    (s ∈ all_permissions liquid_apps ↔
      ∃ a, a ∈ liquid_apps ∧ a.enabled = true ∧ a.adminOnly = false ∧
        s = "home.use_" ++ a.id)
    ∧ (∀ a, a ∈ liquid_apps → a.adminOnly = true →
        (∀ b, b ∈ liquid_apps → b.enabled = true → b.adminOnly = false → b.id ≠ a.id) →
        ("home.use_" ++ a.id) ∉ all_permissions liquid_apps) := by
  refine ⟨mem_all_permissions_iff liquid_apps s, ?_⟩
  intro a ha hadm huniq hmem
  obtain ⟨b, hb, hben, hbadm, heq⟩ := (mem_all_permissions_iff liquid_apps _).mp hmem
  exact huniq b hb hben hbadm (string_append_left_cancel heq).symm

/-- C4 witness: on the spec's scenario catalog, the enabled admin-only app
`matrix` contributes no classifiable permission. -/
theorem classifiable_permissions_witness :
    ("home.use_matrix" : String) ∉
      all_permissions
        [⟨"hoover", true, false⟩, ⟨"matrix", true, true⟩, ⟨"wiki", false, false⟩] :=
  (classifiable_permissions_exactly
      [⟨"hoover", true, false⟩, ⟨"matrix", true, true⟩, ⟨"wiki", false, false⟩]
      "home.use_matrix").2
    ⟨"matrix", true, true⟩ (by decide) rfl (by decide)

/-- C5: the candidate-permission filtering applied when rendering the
many-to-many permission field is the same for the user surface (field
`user_permissions`) and the group surface (field `permissions`): both keep
exactly the rows of the input queryset whose codename belongs to an enabled
app. -/
theorem user_group_permission_filtering_identical
    (liquid_apps : List App) (qs : List Permission) :
    hooverUserAdmin_permission_field liquid_apps qs =
      hooverGroupAdmin_permission_field liquid_apps qs
    ∧ ∀ p, (p ∈ hooverUserAdmin_permission_field liquid_apps qs ↔
        p ∈ qs ∧ ∃ a, a ∈ liquid_apps ∧ a.enabled = true ∧ p.codename = "use_" ++ a.id) := by
  constructor
  · unfold hooverUserAdmin_permission_field hooverGroupAdmin_permission_field
      formfield_for_manytomany
    rw [if_pos (Or.inr rfl), if_pos (Or.inl rfl)]
  · intro p
    unfold hooverUserAdmin_permission_field formfield_for_manytomany _filter_permissions
    rw [if_pos (Or.inr rfl), List.mem_filter]
    exact and_congr Iff.rfl
      (List.elem_iff.trans (mem_enabled_app_codenames_iff liquid_apps p.codename))

/-- C6: a permission not derivable from the catalog is excluded from the
assignable-permission filtering result and from the classification universe,
and any granted set — whatever strings it contains — never makes the
summary render fail. -/
theorem unknown_permission_tolerated (liquid_apps : List App)
    (qs : List Permission) (G : List String) (p : Permission) (s : String)
    (hp : ∀ a, a ∈ liquid_apps → a.enabled = true → p.codename ≠ "use_" ++ a.id)
    (hs : ∀ a, a ∈ liquid_apps → s ≠ "home.use_" ++ a.id) :
    p ∉ _filter_permissions liquid_apps qs
    ∧ s ∉ all_permissions liquid_apps
    ∧ app_permissions_from_groups liquid_apps G ≠ none := by
  refine ⟨?_, ?_, apfg_ne_none liquid_apps G⟩
  · intro hmem
    have hc := (List.mem_filter.mp hmem).2
    obtain ⟨a, ha, hen, heq⟩ :=
      (mem_enabled_app_codenames_iff liquid_apps p.codename).mp (List.elem_iff.mp hc)
    exact hp a ha hen heq
  · intro hmem
    obtain ⟨a, ha, -, -, heq⟩ := (mem_all_permissions_iff liquid_apps s).mp hmem
    exact hs a ha heq

/-- C6 witness: a stale codename is filtered out, a garbage grant string is
outside the universe, and a grant set containing only that garbage string
(which has no dot, so an unguarded `split('.')[1]` would raise) still
renders without failure. -/
theorem unknown_permission_witness :
    (⟨"use_stale"⟩ : Permission) ∉
      _filter_permissions [⟨"hoover", true, false⟩] [⟨"use_stale"⟩]
    ∧ ("garbage" : String) ∉ all_permissions [⟨"hoover", true, false⟩]
    ∧ app_permissions_from_groups [⟨"hoover", true, false⟩] ["garbage"] ≠ none :=
  unknown_permission_tolerated [⟨"hoover", true, false⟩] [⟨"use_stale"⟩]
    ["garbage"] ⟨"use_stale"⟩ "garbage" (by decide) (by decide)

/-- C7: with the two-factor flag enabled, every creation stores an unusable
credential and needs no password fields; with it disabled, creation without
password fields fails with a validation error; and the flag selects exactly
one of the two creation forms. -/
theorem account_creation_mode_dichotomy (username : String)
    (password1 password2 : Option String) :
    admin_create_user true username password1 password2 =
      Except.ok { username := username, password := StoredPassword.unusable }
    ∧ (∃ msg, admin_create_user false username none none = Except.error msg)
    ∧ (∀ b : Bool,
        (hooverUserAdmin_get_form b = CreationForm.twofa ↔ b = true)
        ∧ (hooverUserAdmin_get_form b = CreationForm.classic ↔ b = false)) := by
  refine ⟨rfl, ⟨"This field is required.", rfl⟩, ?_⟩
  intro b
  cases b
  · exact ⟨by decide, by decide⟩
  · exact ⟨by decide, by decide⟩

/-- C8 counterexample: a request whose user holds the change permission is
allowed to edit an invitation — `InvitationAdmin` overrides only the add and
delete hooks, so editing is not forbidden for every request as claimed. -/
theorem invitation_change_permitted_counterexample :
    invitationAdmin_has_change_permission { userHasChangePerm := true } = true := by
  decide

/-- C8 (amended): on the invitation surface creation is forbidden for every
request and deletion is permitted for every request; editing is not
overridden and falls back to the framework default, which permits it exactly
when the requesting user holds the change permission. -/
theorem invitation_admin_lifecycle (r : AdminRequest) :
    invitationAdmin_has_add_permission r = false
    ∧ invitationAdmin_has_delete_permission r = true
    ∧ invitationAdmin_has_change_permission r = r.userHasChangePerm :=
  ⟨rfl, rfl, rfl⟩

/-- C9: the rendered time-remaining is empty when the expiry is in the past,
and otherwise is floor((expires - now)/60) followed by " min"; an invitation
expiring exactly 30 minutes from now renders "30 min". -/
theorem time_left_rendering (expires nowT : Int) :
    (expires < nowT → time_left expires nowT = "")
    ∧ (nowT ≤ expires →
        time_left expires nowT = toString ((expires - nowT).fdiv 60) ++ " min")
    ∧ time_left (nowT + 1800) nowT = "30 min" := by
  refine ⟨?_, ?_, ?_⟩
  · intro h
    unfold time_left
    rw [if_pos h]
  · intro h
    unfold time_left
    rw [if_neg (not_lt.mpr h)]
    rw [Int.fdiv_eq_tdiv (sub_nonneg.mpr h) (by norm_num)]
  · unfold time_left
    rw [if_neg (by omega)]
    have h30 : nowT + 1800 - nowT = 1800 := by ring
    rw [h30]
    decide

/-- C9 witness: a past expiry renders the empty string and an expiry 1800
seconds (30 minutes) after now renders via the floor division. -/
theorem time_left_witness :
    time_left 0 1 = ""
    ∧ time_left 1800 0 = toString ((1800 - 0 : Int).fdiv 60) ++ " min" :=
  ⟨(time_left_rendering 0 1).1 (by decide),
   (time_left_rendering 1800 0).2.1 (by decide)⟩

/-- C10: for any Setting and Node record and any JSON value that survives a
serialization round-trip, writing through the data setter and reading the
data getter returns the same value; the setter touches only the serialized
text column, leaving every other field unchanged. -/
theorem json_data_roundtrip (s : Setting) (n : Node) (v : Json)
    (h : loads (dumps v) = some v) :
    (s.set_data v).data = some v
    ∧ (s.set_data v).name = s.name
    ∧ (s.set_data v).data_text = dumps v
    ∧ (n.set_data v).data = some v
    ∧ (n.set_data v).name = n.name
    ∧ (n.set_data v).trusted = n.trusted
    ∧ (n.set_data v).address = n.address
    ∧ (n.set_data v).data_text = dumps v := by
  refine ⟨?_, rfl, rfl, ?_, rfl, rfl, rfl, rfl⟩
  · exact h
  · exact h

/-- C10 witness: a concrete JSON object survives the round-trip and the
setter/getter composition returns it. -/
theorem json_data_roundtrip_witness :
    (Setting.set_data ⟨"theme", "old"⟩ (Json.obj [("dark", Json.bool true)])).data
      = some (Json.obj [("dark", Json.bool true)]) :=
  (json_data_roundtrip ⟨"theme", "old"⟩ ⟨"node1", false, "10.0.0.1", "old"⟩
    (Json.obj [("dark", Json.bool true)]) rfl).1
